import Mathlib

/-!
Verification of the `auto_star.py` star-sweep script (repository twj2/star-bot).

The script logs into GitHub with a token, loads a list of target users
(from the environment variable TARGET_USERS or the file targets.txt),
and for each target examines at most CHECK_LIMIT of that user's most
recently created repositories, starring each one the acting account has
not yet starred and logging whether it was the first star.

We embed the script shallowly: every remote interaction is an observed
outcome (`Except GhError α`) recorded in the input data, the log is a
list of `LogEvent`s mirroring the `logging` calls, and the star actions
issued (`add_to_starred` calls) are collected as a list of repository
names.  The process exit code is modelled explicitly.
-/

/-- An exception raised by a platform call: `GithubException` (caught by
the dedicated `except GithubException` arms) or any other exception
(caught by the `except Exception` arms).  The message is the text that
would be interpolated into the log line. -/
inductive GhError where
  | github (msg : String)
  | other (msg : String)
deriving DecidableEq, Repr

deriving instance DecidableEq for Except

/-- One repository as observed while processing it, together with the
outcomes the platform would give to the calls the script makes on it:
`me.has_in_starred(repo)`, the `repo.stargazers_count` snapshot read just
before starring, and `me.add_to_starred(repo)`.  `postActionCount` is the
true star count on the platform after the star action; the script never
reads it (it only estimates `stargazers_count + 1`). -/
structure RepoObs where
  full_name : String
  hasStarredResult : Except GhError Bool
  stargazers_count : Nat
  starResult : Except GhError Unit
  postActionCount : Nat
deriving DecidableEq, Repr

/-- One log line of the script, one constructor per `logging` call site. -/
inductive LogEvent where
  | tokenMissingErr
  | loginInfo (login : String)
  | authErr (msg : String)
  | noTargetsErr
  | emptyTargetsErr
  | checking (user : String)
  | skipStarred (repo : String)
  | foundUnstarred (repo : String)
  | starDone (repo : String)
  | firstStar (repo : String)
  | backfill (repo : String) (pre : Nat) (cur : Nat)
  | repoGithubErr (repo : String) (msg : String)
  | repoOtherErr (repo : String) (msg : String)
  | targetGithubErr (user : String) (msg : String)
  | targetOtherErr (user : String) (msg : String)
  | rateInfo (remaining : Nat) (limit : Nat)
deriving DecidableEq, Repr

/-- Is this log event one of the per-repository lines (emitted by the
body of the inner `for i, repo in enumerate(repos)` loop)? -/
def isRepoEvent : LogEvent → Bool
  | .skipStarred _ => true
  | .foundUnstarred _ => true
  | .starDone _ => true
  | .firstStar _ => true
  | .backfill _ _ _ => true
  | .repoGithubErr _ _ => true
  | .repoOtherErr _ _ => true
  | _ => false

/-- The inner per-repository block of `main` (lines 71-91 of
`auto_star.py`): query `has_in_starred`; on `True` skip with a debug
line; otherwise log the discovery, snapshot `stargazers_count`, issue
`add_to_starred`, log the action, and classify the event as first-star
or back-fill.  Any exception from the two platform calls is caught by
the surrounding `except` arms and turned into a warning line.  Returns
the log lines produced and the list of `add_to_starred` calls issued. -/
def processRepo (r : RepoObs) : List LogEvent × List String :=
  match r.hasStarredResult with
  | .error (.github m) => ([.repoGithubErr r.full_name m], [])
  | .error (.other m) => ([.repoOtherErr r.full_name m], [])
  | .ok true => ([.skipStarred r.full_name], [])
  | .ok false =>
    let current_stars := r.stargazers_count
    match r.starResult with
    | .error (.github m) =>
        ([.foundUnstarred r.full_name, .repoGithubErr r.full_name m], [r.full_name])
    | .error (.other m) =>
        ([.foundUnstarred r.full_name, .repoOtherErr r.full_name m], [r.full_name])
    | .ok _ =>
        ([.foundUnstarred r.full_name, .starDone r.full_name] ++
          (if current_stars = 0 then [.firstStar r.full_name]
           else [.backfill r.full_name current_stars (current_stars + 1)]),
         [r.full_name])

/-- Sequential processing of a list of repositories, concatenating logs
and issued star actions in order. -/
def processRepos : List RepoObs → List LogEvent × List String
  | [] => ([], [])
  | r :: rs =>
      let h := processRepo r
      let t := processRepos rs
      (h.1 ++ t.1, h.2 ++ t.2)

/-- The scan cut-off of the inner loop: `for i, repo in enumerate(repos):
if i >= CHECK_LIMIT: break`.  `i` counts from 0; iteration stops at the
first index `i` with `i >= CHECK_LIMIT` (an `int`, possibly ≤ 0). -/
def scanLoop (limit : Int) : Nat → List RepoObs → List RepoObs
  | _, [] => []
  | i, r :: rs => if limit ≤ (i : Int) then [] else r :: scanLoop limit (i + 1) rs

/-- The repositories actually examined for one target: the enumeration
starts at index 0. -/
def examinedRepos (limit : Int) (repos : List RepoObs) : List RepoObs :=
  scanLoop limit 0 repos

/-- Per-target processing (lines 61-96 of `auto_star.py`): log the
checking banner, resolve the target and list its repositories
(`fetch u`), then run the bounded per-repository scan.  A failure while
resolving or listing is caught by the target-level `except` arms and
logged as an error line, after which the function returns. -/
def processTarget (limit : Int) (fetch : String → Except GhError (List RepoObs))
    (u : String) : List LogEvent × List String :=
  match fetch u with
  | .error (.github m) => ([.checking u, .targetGithubErr u m], [])
  | .error (.other m) => ([.checking u, .targetOtherErr u m], [])
  | .ok repos =>
      let out := processRepos (examinedRepos limit repos)
      (.checking u :: out.1, out.2)

/-- The outer loop over all targets, in order. -/
def runTargets (limit : Int) (fetch : String → Except GhError (List RepoObs)) :
    List String → List LogEvent × List String
  | [] => ([], [])
  | u :: us =>
      let h := processTarget limit fetch u
      let t := runTargets limit fetch us
      (h.1 ++ t.1, h.2 ++ t.2)

/-- One line of `targets.txt` as parsed by `load_target_users`:
`line.split("#", 1)[0].strip()` — drop everything from the first `#`
on, then strip surrounding whitespace. -/
def parseTargetLine (line : String) : String :=
  ((line.splitOn "#").headD line).trim

/-- The function `load_target_users` (lines 27-42 of `auto_star.py`).  `env` is
`os.getenv("TARGET_USERS")` (`none` when unset) and `file` the content
of `targets.txt` as lines (`none` when the file does not exist).  When
the stripped environment value is non-empty it is split on commas, each
entry stripped, empty entries dropped, and the file is never consulted;
otherwise the file is read line by line, appending each non-empty parsed
line; a missing file yields `none` (the script exits with status 1). -/
def load_target_users (env : Option String) (file : Option (List String)) :
    Option (List String) :=
  let envv := (env.getD "").trim
  if !envv.isEmpty then
    some (((envv.splitOn ",").map String.trim).filter (fun u => !u.isEmpty))
  else
    match file with
    | some lines =>
        some (lines.foldl
          (fun users line =>
            let l := parseTargetLine line
            if !l.isEmpty then users ++ [l] else users) [])
    | none => none

/-- The function `load_target_users` as the specification describes it: inline value
split on commas with entries trimmed and blanks dropped, otherwise each
file line with its trailing comment removed and trimmed, blanks
discarded, a missing file being fatal. -/
def loadTargetUsersSpec (env : Option String) (file : Option (List String)) :
    Option (List String) :=
  let envv := (env.getD "").trim
  if !envv.isEmpty then
    some ((envv.splitOn ",").filterMap (fun u =>
      let t := u.trim
      if t.isEmpty then none else some t))
  else
    match file with
    | some lines =>
        some (lines.filterMap (fun line =>
          let l := parseTargetLine line
          if l.isEmpty then none else some l))
    | none => none

/-- Python truthiness of the `TOKEN` read from `USER_TOKEN`: `if not
TOKEN` fires when the variable is unset or the empty string. -/
def tokenOk : Option String → Bool
  | none => false
  | some s => !s.isEmpty

/-- The trailing rate-quota report (lines 99-103): on success one info
line; any failure is swallowed by the bare `except Exception: pass`. -/
def rateLog : Except GhError (Nat × Nat) → List LogEvent
  | .ok (rem, lim) => [.rateInfo rem lim]
  | .error _ => []

/-- Everything the environment supplies to one run of the script:
the token, the outcome of authenticating (`g.get_user()` + `me.login`),
the two target-list sources, the parsed `CHECK_LIMIT`, the outcome of
resolving each target user and listing its repositories sorted by
creation time descending, and the outcome of the final rate-limit
query. -/
structure World where
  userToken : Option String
  auth : Except GhError String
  targetEnv : Option String
  targetsFile : Option (List String)
  checkLimit : Int
  fetchRepos : String → Except GhError (List RepoObs)
  rateLimit : Except GhError (Nat × Nat)

/-- The outcome of one run: process exit status, log lines in order,
and the `add_to_starred` calls issued. -/
structure RunResult where
  exitCode : Nat
  log : List LogEvent
  stars : List String
deriving DecidableEq, Repr

/-- The whole script: the module-level token check (`sys.exit(1)` when
`USER_TOKEN` is missing or empty, before anything else), then `main`:
authenticate (a `GithubException` is logged and fatal; any other
exception propagates and the interpreter exits with status 1),
load the target list (a missing file is fatal inside
`load_target_users`), reject an empty list, run the sweep over all
targets, and finally attempt the best-effort rate report.  Normal
completion exits with status 0. -/
def run (w : World) : RunResult :=
  if !tokenOk w.userToken then ⟨1, [.tokenMissingErr], []⟩
  else
    match w.auth with
    | .error (.github m) => ⟨1, [.authErr m], []⟩
    | .error (.other _) => ⟨1, [], []⟩
    | .ok login =>
      match load_target_users w.targetEnv w.targetsFile with
      | none => ⟨1, [.loginInfo login, .noTargetsErr], []⟩
      | some ts =>
        if ts.isEmpty then ⟨1, [.loginInfo login, .emptyTargetsErr], []⟩
        else
          let body := runTargets w.checkLimit w.fetchRepos ts
          ⟨0, .loginInfo login :: (body.1 ++ rateLog w.rateLimit), body.2⟩

/-! ## Helper lemmas -/

theorem scanLoop_eq_take (limit : Int) (i : Nat) (rs : List RepoObs) :
    scanLoop limit i rs = rs.take (limit - (i : Int)).toNat := by
  induction rs generalizing i with
  | nil => simp [scanLoop]
  | cons r rs ih =>
      by_cases h : limit ≤ (i : Int)
      · have : (limit - (i : Int)).toNat = 0 := by omega
        simp [scanLoop, h, this]
      · have h1 : (limit - (i : Int)).toNat = (limit - ((i + 1 : Nat) : Int)).toNat + 1 := by
          push_cast
          omega
        simp [scanLoop, h, h1, ih]

theorem examinedRepos_eq_take (limit : Int) (rs : List RepoObs) :
    examinedRepos limit rs = rs.take limit.toNat := by
  simpa using scanLoop_eq_take limit 0 rs

theorem processRepos_append (a b : List RepoObs) :
    processRepos (a ++ b) =
      ((processRepos a).1 ++ (processRepos b).1,
       (processRepos a).2 ++ (processRepos b).2) := by
  induction a with
  | nil => simp [processRepos]
  | cons r rs ih => simp [processRepos, ih]

/-! ## Claim theorems: per-repository decision -/

/-- C1: for an examined repository the acting account has not starred
(`has_in_starred` returned `False`), an `add_to_starred` call is issued;
and when that call succeeds, the event is classified "first-star" iff the
pre-action count snapshot is exactly 0, and for any other pre-action
count a back-fill line reporting that observed pre-action count is
emitted instead. -/
theorem unstarred_repo_starred_and_classified (r : RepoObs)
    (h : r.hasStarredResult = .ok false) :
    (processRepo r).2 = [r.full_name] ∧
    (r.starResult = .ok () →
      ((LogEvent.firstStar r.full_name ∈ (processRepo r).1 ↔
          r.stargazers_count = 0) ∧
        (r.stargazers_count ≠ 0 →
          LogEvent.backfill r.full_name r.stargazers_count
              (r.stargazers_count + 1) ∈ (processRepo r).1) ∧
        (∀ p c, LogEvent.backfill r.full_name p c ∈ (processRepo r).1 →
          p = r.stargazers_count))) := by
  constructor
  · match hs : r.starResult with
    | .ok _ => simp [processRepo, h, hs]
    | .error (.github m) => simp [processRepo, h, hs]
    | .error (.other m) => simp [processRepo, h, hs]
  · intro hs
    by_cases hz : r.stargazers_count = 0 <;>
      simp [processRepo, h, hs, hz]

theorem unstarred_repo_starred_and_classified_witness :
    (let r : RepoObs := ⟨"alice/bar", .ok false, 5, .ok (), 6⟩
     (processRepo r).2 = [r.full_name] ∧
     (r.starResult = .ok () →
       ((LogEvent.firstStar r.full_name ∈ (processRepo r).1 ↔
           r.stargazers_count = 0) ∧
         (r.stargazers_count ≠ 0 →
           LogEvent.backfill r.full_name r.stargazers_count
               (r.stargazers_count + 1) ∈ (processRepo r).1) ∧
         (∀ p c, LogEvent.backfill r.full_name p c ∈ (processRepo r).1 →
           p = r.stargazers_count)))) :=
  unstarred_repo_starred_and_classified ⟨"alice/bar", .ok false, 5, .ok (), 6⟩ rfl

/-- C2: a repository the acting account already has starred
(`has_in_starred` returned `True`) yields exactly the debug skip line:
no `add_to_starred` call is issued and no first-star or back-fill line
is emitted. -/
theorem starred_repo_skipped (r : RepoObs)
    (h : r.hasStarredResult = .ok true) :
    processRepo r = ([.skipStarred r.full_name], []) ∧
    (∀ n, LogEvent.firstStar n ∉ (processRepo r).1) ∧
    (∀ n p c, LogEvent.backfill n p c ∉ (processRepo r).1) := by
  refine ⟨by simp [processRepo, h], ?_, ?_⟩ <;>
    simp [processRepo, h]

theorem starred_repo_skipped_witness :
    (let r : RepoObs := ⟨"alice/baz", .ok true, 7, .ok (), 8⟩
     processRepo r = ([.skipStarred r.full_name], []) ∧
     (∀ n, LogEvent.firstStar n ∉ (processRepo r).1) ∧
     (∀ n p c, LogEvent.backfill n p c ∉ (processRepo r).1)) :=
  starred_repo_skipped ⟨"alice/baz", .ok true, 7, .ok (), 8⟩ rfl

/-- C8: a back-fill line always reports "current possible" as the
pre-action snapshot plus one; it never re-reads the post-action count,
so the same line is produced whatever the platform's true post-action
count is. -/
theorem backfill_current_is_estimate (r : RepoObs)
    (h : r.hasStarredResult = .ok false) (hs : r.starResult = .ok ())
    (hz : r.stargazers_count ≠ 0) :
    LogEvent.backfill r.full_name r.stargazers_count
        (r.stargazers_count + 1) ∈ (processRepo r).1 ∧
    (∀ c, LogEvent.backfill r.full_name r.stargazers_count c ∈
        (processRepo r).1 → c = r.stargazers_count + 1) ∧
    (∀ n, processRepo { r with postActionCount := n } = processRepo r) := by
  refine ⟨?_, ?_, ?_⟩
  · simp [processRepo, h, hs, hz]
  · simp [processRepo, h, hs, hz]
  · intro n
    simp [processRepo]

theorem backfill_current_is_estimate_witness :
    (let r : RepoObs := ⟨"alice/qux", .ok false, 5, .ok (), 100⟩
     LogEvent.backfill r.full_name r.stargazers_count
         (r.stargazers_count + 1) ∈ (processRepo r).1 ∧
     (∀ c, LogEvent.backfill r.full_name r.stargazers_count c ∈
         (processRepo r).1 → c = r.stargazers_count + 1) ∧
     (∀ n, processRepo { r with postActionCount := n } = processRepo r)) :=
  backfill_current_is_estimate ⟨"alice/qux", .ok false, 5, .ok (), 100⟩
    rfl rfl (by decide)

/-! ## Claim theorems: scan limit -/

/-- C3: with a scan limit N ≥ 1, a target whose (creation-descending)
repository list has at most N entries gets every repository examined;
with more than N entries exactly the first N are examined, the examined
sequence being an initial segment of the list, so nothing beyond
position N is examined. -/
theorem scan_limit_respected (limit : Int) (h : 1 ≤ limit)
    (repos : List RepoObs) :
    (repos.length ≤ limit.toNat → examinedRepos limit repos = repos) ∧
    (limit.toNat ≤ repos.length →
      (examinedRepos limit repos).length = limit.toNat) ∧
    (∃ rest, repos = examinedRepos limit repos ++ rest) := by
  rw [examinedRepos_eq_take]
  refine ⟨?_, ?_, ?_⟩
  · intro hle
    exact List.take_of_length_le hle
  · intro hge
    simp [List.length_take]
    omega
  · exact ⟨repos.drop limit.toNat, (List.take_append_drop _ _).symm⟩

theorem scan_limit_respected_witness :
    (1 : Int) ≤ 2 ∧
    (let repos : List RepoObs :=
       [⟨"t/r1", .ok true, 0, .ok (), 0⟩, ⟨"t/r2", .ok true, 0, .ok (), 0⟩,
        ⟨"t/r3", .ok true, 0, .ok (), 0⟩]
     (repos.length ≤ (2 : Int).toNat → examinedRepos 2 repos = repos) ∧
     ((2 : Int).toNat ≤ repos.length →
       (examinedRepos 2 repos).length = (2 : Int).toNat) ∧
     (∃ rest, repos = examinedRepos 2 repos ++ rest)) :=
  ⟨by decide,
   scan_limit_respected 2 (by decide)
     [⟨"t/r1", .ok true, 0, .ok (), 0⟩, ⟨"t/r2", .ok true, 0, .ok (), 0⟩,
      ⟨"t/r3", .ok true, 0, .ok (), 0⟩]⟩

theorem rateLog_no_repoEvent (x : Except GhError (Nat × Nat)) :
    ∀ ev ∈ rateLog x, isRepoEvent ev = false := by
  cases x with
  | ok p => cases p with | mk a b => simp [rateLog, isRepoEvent]
  | error e => simp [rateLog]

theorem processTarget_nonpos (limit : Int)
    (fetch : String → Except GhError (List RepoObs)) (u : String)
    (h : limit ≤ 0) :
    (processTarget limit fetch u).2 = [] ∧
    ∀ ev ∈ (processTarget limit fetch u).1, isRepoEvent ev = false := by
  have hz : limit.toNat = 0 := Int.toNat_of_nonpos h
  cases hf : fetch u with
  | error e => cases e <;> simp [processTarget, hf, isRepoEvent]
  | ok repos =>
      simp [processTarget, hf, examinedRepos_eq_take, hz, processRepos,
        isRepoEvent]

theorem runTargets_nonpos (limit : Int)
    (fetch : String → Except GhError (List RepoObs)) (h : limit ≤ 0) :
    ∀ ts, (runTargets limit fetch ts).2 = [] ∧
      ∀ ev ∈ (runTargets limit fetch ts).1, isRepoEvent ev = false := by
  intro ts
  induction ts with
  | nil => simp [runTargets]
  | cons u us ih =>
      have hp := processTarget_nonpos limit fetch u h
      constructor
      · simp [runTargets, hp.1, ih.1]
      · intro ev hev
        simp [runTargets, List.mem_append] at hev
        rcases hev with hA | hB
        · exact hp.2 ev hA
        · exact ih.2 ev hB

/-- C10: a configured scan limit ≤ 0 makes the inner loop break before
its first iteration for every target: no repository is examined, no
star action is issued, and no per-repository log line occurs anywhere
in the run — the spec's precondition N ≥ 1 is not enforced. -/
theorem nonpositive_limit_examines_nothing (w : World)
    (h : w.checkLimit ≤ 0) :
    (∀ repos, examinedRepos w.checkLimit repos = []) ∧
    (run w).stars = [] ∧
    (∀ ev ∈ (run w).log, isRepoEvent ev = false) := by
  have hz : w.checkLimit.toNat = 0 := Int.toNat_of_nonpos h
  have hmain := runTargets_nonpos w.checkLimit w.fetchRepos h
  refine ⟨fun repos => by simp [examinedRepos_eq_take, hz], ?_⟩
  unfold run
  cases htok : tokenOk w.userToken with
  | false => simp [isRepoEvent]
  | true =>
      cases hauth : w.auth with
      | error e =>
          cases e with
          | github m => simp [isRepoEvent]
          | other m => simp
      | ok login =>
          cases hload : load_target_users w.targetEnv w.targetsFile with
          | none => simp [isRepoEvent]
          | some ts =>
              cases hts : ts.isEmpty with
              | true => simp [hts, isRepoEvent]
              | false =>
                  simp only [hts, Bool.false_eq_true, if_false]
                  refine ⟨(hmain ts).1, ?_⟩
                  intro ev hev
                  rcases List.mem_cons.mp hev with rfl | hev1
                  · rfl
                  · rcases List.mem_append.mp hev1 with hA | hB
                    · exact (hmain ts).2 ev hA
                    · exact rateLog_no_repoEvent w.rateLimit ev hB

def sampleFetchLimit : String → Except GhError (List RepoObs) :=
  fun _ => .ok [⟨"z/a", .ok false, 0, .ok (), 1⟩]

def sampleWorldLimit : World :=
  ⟨some "tok", .ok "me", some "alice", none, 0, sampleFetchLimit,
    .ok (4999, 5000)⟩

theorem nonpositive_limit_examines_nothing_witness :
    sampleWorldLimit.checkLimit ≤ 0 ∧ (run sampleWorldLimit).stars = [] :=
  ⟨by decide,
    (nonpositive_limit_examines_nothing sampleWorldLimit (by decide)).2.1⟩

/-! ## Claim theorems: error isolation -/

/-- Is this log event one of the two per-repository warning lines? -/
def isRepoErrEvent : LogEvent → Bool
  | .repoGithubErr _ _ => true
  | .repoOtherErr _ _ => true
  | _ => false

/-- C4: an exception while processing the repository at one position of
the examined sequence (from `has_in_starred`, or from `add_to_starred`
once the repository was found unstarred) is caught and logged as exactly
one warning line — no retry of that repository happens — and the target's
log is precisely the independent processing of the earlier repositories,
the failing one, and the later ones, so position i+1 is still examined;
the outer loop likewise continues with the remaining targets. -/
theorem repo_failure_isolated (limit : Int)
    (fetch : String → Except GhError (List RepoObs)) (u : String)
    (pre post : List RepoObs) (r : RepoObs)
    (hfetch : fetch u = .ok (pre ++ r :: post))
    (hlen : (pre ++ r :: post).length ≤ limit.toNat)
    (herr : (∃ e, r.hasStarredResult = .error e) ∨
      (r.hasStarredResult = .ok false ∧ ∃ e, r.starResult = .error e)) :
    ((processRepo r).1.filter isRepoErrEvent).length = 1 ∧
    (∃ m, LogEvent.repoGithubErr r.full_name m ∈ (processRepo r).1 ∨
      LogEvent.repoOtherErr r.full_name m ∈ (processRepo r).1) ∧
    (processTarget limit fetch u).1 =
      .checking u :: ((processRepos pre).1 ++ (processRepo r).1 ++
        (processRepos post).1) ∧
    (∀ us, runTargets limit fetch (u :: us) =
      ((processTarget limit fetch u).1 ++ (runTargets limit fetch us).1,
       (processTarget limit fetch u).2 ++ (runTargets limit fetch us).2)) := by
  have hone : ((processRepo r).1.filter isRepoErrEvent).length = 1 ∧
      (∃ m, LogEvent.repoGithubErr r.full_name m ∈ (processRepo r).1 ∨
        LogEvent.repoOtherErr r.full_name m ∈ (processRepo r).1) := by
    rcases herr with ⟨e, he⟩ | ⟨hok, e, he⟩
    · cases e with
      | github m =>
          exact ⟨by simp [processRepo, he, isRepoErrEvent],
            ⟨m, by simp [processRepo, he]⟩⟩
      | other m =>
          exact ⟨by simp [processRepo, he, isRepoErrEvent],
            ⟨m, by simp [processRepo, he]⟩⟩
    · cases e with
      | github m =>
          exact ⟨by simp [processRepo, hok, he, isRepoErrEvent],
            ⟨m, by simp [processRepo, hok, he]⟩⟩
      | other m =>
          exact ⟨by simp [processRepo, hok, he, isRepoErrEvent],
            ⟨m, by simp [processRepo, hok, he]⟩⟩
  refine ⟨hone.1, hone.2, ?_, ?_⟩
  · have hexam : examinedRepos limit (pre ++ r :: post) = pre ++ r :: post := by
      rw [examinedRepos_eq_take]
      exact List.take_of_length_le hlen
    have hsplit := processRepos_append pre (r :: post)
    simp [processTarget, hfetch, hexam, hsplit, processRepos]
  · intro us
    simp [runTargets]

def sampleBadRepo : RepoObs :=
  ⟨"t/bad", .error (.github "403 forbidden"), 3, .ok (), 4⟩

def sampleGoodRepo1 : RepoObs := ⟨"t/g1", .ok true, 2, .ok (), 2⟩

def sampleGoodRepo2 : RepoObs := ⟨"t/g2", .ok false, 0, .ok (), 1⟩

def sampleFetchRepoFail : String → Except GhError (List RepoObs) :=
  fun _ => .ok [sampleGoodRepo1, sampleBadRepo, sampleGoodRepo2]

theorem repo_failure_isolated_witness :
    (processTarget 10 sampleFetchRepoFail "t").1 =
      .checking "t" :: ((processRepos [sampleGoodRepo1]).1 ++
        (processRepo sampleBadRepo).1 ++
        (processRepos [sampleGoodRepo2]).1) :=
  (repo_failure_isolated 10 sampleFetchRepoFail "t" [sampleGoodRepo1]
    [sampleGoodRepo2] sampleBadRepo rfl (by decide)
    (Or.inl ⟨.github "403 forbidden", rfl⟩)).2.2.1

/-- C5: a failure while resolving a target account or listing its
repositories is caught at the target level: the target's log is the
checking banner followed by exactly the target-level error line, no star
action is issued for it, and the outer loop's output on the remaining
targets is exactly what it is without the failing target — the run is
never terminated by such a failure. -/
theorem target_failure_isolated (limit : Int)
    (fetch : String → Except GhError (List RepoObs)) (u : String)
    (us : List String) (herr : ∃ e, fetch u = .error e) :
    (∃ m, (processTarget limit fetch u).1 =
        [.checking u, .targetGithubErr u m] ∨
      (processTarget limit fetch u).1 =
        [.checking u, .targetOtherErr u m]) ∧
    (processTarget limit fetch u).2 = [] ∧
    runTargets limit fetch (u :: us) =
      ((processTarget limit fetch u).1 ++ (runTargets limit fetch us).1,
       (runTargets limit fetch us).2) := by
  obtain ⟨e, he⟩ := herr
  have hbase : (∃ m, (processTarget limit fetch u).1 =
        [LogEvent.checking u, .targetGithubErr u m] ∨
      (processTarget limit fetch u).1 =
        [LogEvent.checking u, .targetOtherErr u m]) ∧
      (processTarget limit fetch u).2 = [] := by
    cases e with
    | github m => exact ⟨⟨m, Or.inl (by simp [processTarget, he])⟩,
        by simp [processTarget, he]⟩
    | other m => exact ⟨⟨m, Or.inr (by simp [processTarget, he])⟩,
        by simp [processTarget, he]⟩
  refine ⟨hbase.1, hbase.2, ?_⟩
  simp [runTargets, hbase.2]

def sampleFetchTargetFail : String → Except GhError (List RepoObs) :=
  fun v => if v = "broken" then .error (.github "404 not found")
    else .ok [⟨"ok/r", .ok false, 2, .ok (), 3⟩]

theorem target_failure_isolated_witness :
    runTargets 10 sampleFetchTargetFail ["broken", "alice"] =
      ((processTarget 10 sampleFetchTargetFail "broken").1 ++
        (runTargets 10 sampleFetchTargetFail ["alice"]).1,
       (runTargets 10 sampleFetchTargetFail ["alice"]).2) :=
  (target_failure_isolated 10 sampleFetchTargetFail "broken" ["alice"]
    ⟨.github "404 not found", rfl⟩).2.2

/-- Is this log event the final rate-quota info line? -/
def isRateEvent : LogEvent → Bool
  | .rateInfo _ _ => true
  | _ => false

theorem processRepo_no_rate (r : RepoObs) :
    ∀ ev ∈ (processRepo r).1, isRateEvent ev = false := by
  cases h1 : r.hasStarredResult with
  | error e => cases e <;> simp [processRepo, h1, isRateEvent]
  | ok b =>
      cases b with
      | true => simp [processRepo, h1, isRateEvent]
      | false =>
          cases h2 : r.starResult with
          | error e => cases e <;> simp [processRepo, h1, h2, isRateEvent]
          | ok u =>
              by_cases hz : r.stargazers_count = 0 <;>
                simp [processRepo, h1, h2, hz, isRateEvent]

theorem processRepos_no_rate (rs : List RepoObs) :
    ∀ ev ∈ (processRepos rs).1, isRateEvent ev = false := by
  induction rs with
  | nil => simp [processRepos]
  | cons r rs ih =>
      intro ev hev
      rcases List.mem_append.mp (by simpa [processRepos] using hev) with hA | hB
      · exact processRepo_no_rate r ev hA
      · exact ih ev hB

theorem processTarget_no_rate (limit : Int)
    (fetch : String → Except GhError (List RepoObs)) (u : String) :
    ∀ ev ∈ (processTarget limit fetch u).1, isRateEvent ev = false := by
  cases hf : fetch u with
  | error e => cases e <;> simp [processTarget, hf, isRateEvent]
  | ok repos =>
      intro ev hev
      simp only [processTarget, hf, List.mem_cons] at hev
      rcases hev with rfl | h
      · rfl
      · exact processRepos_no_rate _ ev h

theorem runTargets_no_rate (limit : Int)
    (fetch : String → Except GhError (List RepoObs)) (ts : List String) :
    ∀ ev ∈ (runTargets limit fetch ts).1, isRateEvent ev = false := by
  induction ts with
  | nil => simp [runTargets]
  | cons u us ih =>
      intro ev hev
      rcases List.mem_append.mp (by simpa [runTargets] using hev) with hA | hB
      · exact processTarget_no_rate limit fetch u ev hA
      · exact ih ev hB

theorem run_no_rate_of_error (w : World) (e : GhError)
    (h : w.rateLimit = .error e) :
    ∀ ev ∈ (run w).log, isRateEvent ev = false := by
  unfold run
  cases htok : tokenOk w.userToken with
  | false => simp [isRateEvent]
  | true =>
      cases hauth : w.auth with
      | error e2 => cases e2 <;> simp [isRateEvent]
      | ok login =>
          cases hload : load_target_users w.targetEnv w.targetsFile with
          | none => simp [isRateEvent]
          | some ts =>
              cases hts : ts.isEmpty with
              | true => simp [hts, isRateEvent]
              | false =>
                  simp only [hts, Bool.false_eq_true, if_false]
                  intro ev hev
                  rcases List.mem_cons.mp hev with rfl | hev1
                  · rfl
                  · rcases List.mem_append.mp hev1 with hA | hB
                    · exact runTargets_no_rate _ _ ts ev hA
                    · rw [h] at hB
                      simp [rateLog] at hB

theorem run_rate_independent (w : World)
    (x y : Except GhError (Nat × Nat)) :
    (run { w with rateLimit := x }).exitCode =
      (run { w with rateLimit := y }).exitCode ∧
    (run { w with rateLimit := x }).stars =
      (run { w with rateLimit := y }).stars := by
  unfold run
  cases htok : tokenOk w.userToken with
  | false => simp
  | true =>
      cases hauth : w.auth with
      | error e2 => cases e2 <;> simp
      | ok login =>
          cases hload : load_target_users w.targetEnv w.targetsFile with
          | none => simp
          | some ts =>
              cases hts : ts.isEmpty with
              | true => simp [hts]
              | false => simp [hts]

theorem run_error_rate_eq (w : World) (e : GhError)
    (h : w.rateLimit = .error e) (e2 : GhError) :
    run { w with rateLimit := .error e2 } = run w := by
  unfold run
  cases htok : tokenOk w.userToken with
  | false => simp
  | true =>
      cases hauth : w.auth with
      | error e3 => cases e3 <;> simp
      | ok login =>
          cases hload : load_target_users w.targetEnv w.targetsFile with
          | none => simp
          | some ts =>
              cases hts : ts.isEmpty with
              | true => simp [hts]
              | false => simp [hts, h, rateLog]

/-- C9: when the trailing rate-quota query fails, the failure is
swallowed: no rate line (indeed no log line of the report) appears in
the run's log, which is identical whatever the failure was, and the
report's outcome never influences the exit status or the star actions
issued. -/
theorem rate_report_failure_silent (w : World) (e : GhError)
    (h : w.rateLimit = .error e) :
    (∀ rem lim, LogEvent.rateInfo rem lim ∉ (run w).log) ∧
    (∀ x, (run { w with rateLimit := x }).exitCode = (run w).exitCode ∧
      (run { w with rateLimit := x }).stars = (run w).stars) ∧
    (∀ e2, (run { w with rateLimit := .error e2 }).log = (run w).log) := by
  refine ⟨?_, ?_, ?_⟩
  · intro rem lim hmem
    have := run_no_rate_of_error w e h (.rateInfo rem lim) hmem
    simp [isRateEvent] at this
  · intro x
    exact run_rate_independent w x w.rateLimit
  · intro e2
    rw [run_error_rate_eq w e h e2]

def sampleWorldRate : World :=
  ⟨some "tok", .ok "me", some "alice", none, 10, fun _ => .ok [],
    .error (.other "boom")⟩

theorem rate_report_failure_silent_witness :
    sampleWorldRate.rateLimit = .error (.other "boom") ∧
    (run { sampleWorldRate with
        rateLimit := .error (.github "quota query died") }).log =
      (run sampleWorldRate).log :=
  ⟨rfl, (rate_report_failure_silent sampleWorldRate (.other "boom") rfl).2.2
    (.github "quota query died")⟩

/-! ## Claim theorems: exit codes and target-list resolution -/

theorem run_exitCode_one_iff (w : World) :
    (run w).exitCode = 1 ↔
      (tokenOk w.userToken = false ∨ (∃ e, w.auth = .error e) ∨
       load_target_users w.targetEnv w.targetsFile = none ∨
       load_target_users w.targetEnv w.targetsFile = some []) := by
  unfold run
  cases htok : tokenOk w.userToken with
  | false => simp
  | true =>
      cases hauth : w.auth with
      | error e => cases e <;> simp
      | ok login =>
          cases hload : load_target_users w.targetEnv w.targetsFile with
          | none => simp
          | some ts =>
              cases ts with
              | nil => simp
              | cons a as => simp

theorem run_exitCode_zero_or_one (w : World) :
    (run w).exitCode = 0 ∨ (run w).exitCode = 1 := by
  unfold run
  cases htok : tokenOk w.userToken with
  | false => simp
  | true =>
      cases hauth : w.auth with
      | error e => cases e <;> simp
      | ok login =>
          cases hload : load_target_users w.targetEnv w.targetsFile with
          | none => simp
          | some ts =>
              cases hts : ts.isEmpty with
              | true => simp [hts]
              | false => simp [hts]

/-- C6: the process exits with status 1 exactly when the token is
missing or empty, authentication failed, the target list could not be
resolved (no inline value and no file), or the resolved list is empty;
every other run exits 0 (per-repository and per-target errors are
recorded only in the log and in the outcome data, never in the exit
status); and a missing token short-circuits everything: the log is the
single token error line and no star action is issued. -/
theorem exit_code_policy (w : World) :
    ((run w).exitCode = 1 ↔
      (tokenOk w.userToken = false ∨ (∃ e, w.auth = .error e) ∨
       load_target_users w.targetEnv w.targetsFile = none ∨
       load_target_users w.targetEnv w.targetsFile = some [])) ∧
    ((run w).exitCode = 0 ∨ (run w).exitCode = 1) ∧
    (tokenOk w.userToken = false →
      run w = ⟨1, [.tokenMissingErr], []⟩) := by
  refine ⟨run_exitCode_one_iff w, run_exitCode_zero_or_one w, ?_⟩
  intro h
  unfold run
  simp [h]

def sampleWorldNoToken : World :=
  ⟨none, .ok "me", some "alice", none, 10, fun _ => .ok [],
    .ok (4999, 5000)⟩

theorem exit_code_policy_witness :
    tokenOk sampleWorldNoToken.userToken = false ∧
    run sampleWorldNoToken = ⟨1, [.tokenMissingErr], []⟩ :=
  ⟨rfl, (exit_code_policy sampleWorldNoToken).2.2 rfl⟩

theorem filter_map_eq_filterMap (f : String → String) (l : List String) :
    (l.map f).filter (fun u => !u.isEmpty) =
      l.filterMap (fun x =>
        if (f x).isEmpty then none else some (f x)) := by
  induction l with
  | nil => rfl
  | cons a as ih =>
      cases h : (f a).isEmpty with
      | true => simp [List.filter_cons, List.filterMap_cons, h, ih]
      | false => simp [List.filter_cons, List.filterMap_cons, h, ih]

theorem foldl_append_eq_filterMap (g : String → String)
    (lines : List String) (acc : List String) :
    lines.foldl (fun users line =>
        let l := g line
        if !l.isEmpty then users ++ [l] else users) acc =
      acc ++ lines.filterMap (fun line =>
        if (g line).isEmpty then none else some (g line)) := by
  induction lines generalizing acc with
  | nil => simp
  | cons a as ih =>
      cases h : (g a).isEmpty with
      | true =>
          have hstep : (let l := g a
              if (!l.isEmpty) = true then acc ++ [l] else acc) = acc := by
            simp [h]
          rw [List.foldl_cons, hstep, ih, List.filterMap_cons]
          simp [h]
      | false =>
          have hstep : (let l := g a
              if (!l.isEmpty) = true then acc ++ [l] else acc)
                = acc ++ [g a] := by
            simp [h]
          rw [List.foldl_cons, hstep, ih, List.filterMap_cons]
          simp [h]

/-- C7: target-list resolution. `load_target_users` coincides with the
specification's description (non-empty trimmed inline value: comma
split, entries trimmed, blanks dropped; otherwise file lines with the
trailing `#` comment removed and trimmed, blanks discarded); when the
inline value is non-empty the file is never consulted; when it is
empty a missing file yields no list, which makes any run exit with
status 1. -/
theorem target_list_resolution (env : Option String)
    (file : Option (List String)) :
    load_target_users env file = loadTargetUsersSpec env file ∧
    ((env.getD "").trim.isEmpty = false →
      ∀ f1 f2, load_target_users env f1 = load_target_users env f2) ∧
    ((env.getD "").trim.isEmpty = true →
      load_target_users env none = none) ∧
    (∀ w : World, load_target_users w.targetEnv w.targetsFile = none →
      (run w).exitCode = 1) := by
  refine ⟨?_, ?_, ?_, ?_⟩
  · unfold load_target_users loadTargetUsersSpec
    cases h : ((env.getD "").trim).isEmpty with
    | false =>
        simp only [h, Bool.not_false, if_true]
        exact congrArg some (filter_map_eq_filterMap String.trim _)
    | true =>
        simp only [h, Bool.not_true, Bool.false_eq_true, if_false]
        cases file with
        | none => rfl
        | some lines =>
            exact congrArg some (foldl_append_eq_filterMap parseTargetLine
              lines [])
  · intro h f1 f2
    unfold load_target_users
    simp [h]
  · intro h
    unfold load_target_users
    simp [h]
  · intro w hnone
    exact (run_exitCode_one_iff w).mpr (Or.inr (Or.inr (Or.inl hnone)))

theorem target_list_resolution_witness :
    load_target_users (some " alice, bob ,, ") (some ["x # c", "  "]) =
      loadTargetUsersSpec (some " alice, bob ,, ") (some ["x # c", "  "]) :=
  (target_list_resolution (some " alice, bob ,, ") (some ["x # c", "  "])).1
